import Mathlib

/-!
Shallow embedding of `src/filter_tracker.py` (the Record Store of the
filter_tracker repository).

The SQLite table `filters` is modelled as a list of rows kept in scan
(rowid/insertion) order together with the next auto-increment id.
`id INTEGER PRIMARY KEY AUTOINCREMENT` starts at 1 and ids are never
reused, so appending with a counter is faithful.

SQL modelling conventions used throughout:
- TEXT comparison (SQLite's default BINARY collation) is modelled by the
  executable lexicographic comparison `strLe` on the character data.
- `SELECT ... ORDER BY k` is modelled as a stable sort (Mathlib's
  `List.insertionSort`) of the filtered rows in scan order.  SQLite leaves
  the relative order of rows that compare equal under the `ORDER BY` key
  unspecified; the common behaviour (and our deterministic model) is that
  such ties keep scan order, i.e. ascending rowid.
- `MAX(change_date)` / `GROUP BY location` is modelled by folding the
  string maximum over the group and by deduplicating the location column;
  the claims settled below do not depend on the order in which SQLite
  emits groups.
- Python truthiness of an optional string argument (`if not change_date:`,
  `if location:`) is modelled by `pyTruthy`: `None` and `""` are falsy.
- The wall clock string `datetime.now().strftime("%Y-%m-%d")` is injected
  as an explicit `today : String` parameter.
- `print` output is irrelevant to the claims; each operation instead
  returns the new store and, where the source distinguishes outcomes by
  message, a result tag.
-/

/-- Lexicographic comparison of character lists (byte order on code
points), the model of SQLite's BINARY TEXT comparison. -/
def charListLe : List Char → List Char → Bool
  | [], _ => true
  | _ :: _, [] => false
  | a :: as, b :: bs =>
    if a < b then true else if b < a then false else charListLe as bs

/-- `a <= b` for TEXT values. -/
def strLe (a b : String) : Bool := charListLe a.data b.data

/-- `a < b` for TEXT values. -/
def strLt (a b : String) : Bool := !(strLe b a)

/-- `MAX` of two TEXT values. -/
def strMax (a b : String) : String := if strLe a b then b else a

theorem charListLe_refl : ∀ as : List Char, charListLe as as = true := by
  intro as
  induction as with
  | nil => rfl
  | cons a as ih => simpa [charListLe, lt_irrefl] using ih

theorem charListLe_total (as bs : List Char) :
    charListLe as bs = true ∨ charListLe bs as = true := by
  induction as generalizing bs with
  | nil => exact Or.inl rfl
  | cons a as ih =>
    cases bs with
    | nil => exact Or.inr rfl
    | cons b bs =>
      rcases lt_trichotomy a b with h | h | h
      · exact Or.inl (by simp [charListLe, h])
      · subst h
        rcases ih bs with h2 | h2
        · exact Or.inl (by simpa [charListLe, lt_irrefl] using h2)
        · exact Or.inr (by simpa [charListLe, lt_irrefl] using h2)
      · exact Or.inr (by simp [charListLe, h])

theorem charListLe_trans :
    ∀ as bs cs : List Char, charListLe as bs = true →
      charListLe bs cs = true → charListLe as cs = true := by
  intro as
  induction as with
  | nil => intro bs cs _ _; rfl
  | cons a as ih =>
    intro bs cs h1 h2
    cases bs with
    | nil => simp [charListLe] at h1
    | cons b bs =>
      cases cs with
      | nil => simp [charListLe] at h2
      | cons c cs =>
        by_cases hab : a < b
        · by_cases hbc : b < c
          · simp [charListLe, lt_trans hab hbc]
          · by_cases hcb : c < b
            · simp [charListLe, hbc, hcb] at h2
            · have hbc' : b = c := le_antisymm (not_lt.mp hcb) (not_lt.mp hbc)
              subst hbc'
              simp [charListLe, hab]
        · by_cases hba : b < a
          · simp [charListLe, hab, hba] at h1
          · have hab' : a = b := le_antisymm (not_lt.mp hba) (not_lt.mp hab)
            subst hab'
            simp only [charListLe, lt_irrefl, if_false] at h1
            by_cases hac : a < c
            · simp [charListLe, hac]
            · by_cases hca : c < a
              · simp [charListLe, hac, hca] at h2
              · simp only [charListLe, lt_irrefl, if_false] at h2 ⊢
                simp only [if_neg hac, if_neg hca] at h2 ⊢
                exact ih bs cs h1 h2

theorem charListLe_antisymm :
    ∀ as bs : List Char, charListLe as bs = true →
      charListLe bs as = true → as = bs := by
  intro as
  induction as with
  | nil =>
    intro bs h1 h2
    cases bs with
    | nil => rfl
    | cons b bs => simp [charListLe] at h2
  | cons a as ih =>
    intro bs h1 h2
    cases bs with
    | nil => simp [charListLe] at h1
    | cons b bs =>
      by_cases hab : a < b
      · simp [charListLe, hab, asymm hab] at h2
      · by_cases hba : b < a
        · simp [charListLe, hab, hba] at h1
        · have hab' : a = b := le_antisymm (not_lt.mp hba) (not_lt.mp hab)
          subst hab'
          simp only [charListLe, lt_irrefl, if_false] at h1 h2
          rw [ih bs h1 h2]

theorem strLe_refl (a : String) : strLe a a = true := charListLe_refl a.data

theorem strLe_total (a b : String) : strLe a b = true ∨ strLe b a = true :=
  charListLe_total a.data b.data

theorem strLe_trans {a b c : String} (h1 : strLe a b = true)
    (h2 : strLe b c = true) : strLe a c = true :=
  charListLe_trans a.data b.data c.data h1 h2

theorem strLe_antisymm {a b : String} (h1 : strLe a b = true)
    (h2 : strLe b a = true) : a = b := by
  have h := charListLe_antisymm a.data b.data h1 h2
  cases a with
  | mk da =>
    cases b with
    | mk db => exact congrArg String.mk h

theorem strLe_of_strLt {a b : String} (h : strLt a b = true) :
    strLe a b = true := by
  unfold strLt at h
  rcases strLe_total a b with h2 | h2
  · exact h2
  · rw [h2] at h
    simp at h

theorem strLt_irrefl (a : String) : strLt a a = false := by
  unfold strLt
  rw [strLe_refl]
  rfl

/-- One row of the `filters` table (schema in `initialize_database`). -/
structure FilterRecord where
  id : Nat
  location : String
  size : String
  product_number : String
  change_date : String
deriving DecidableEq, Repr

/-- The persisted state: rows in scan (insertion) order plus the next
auto-increment id. -/
structure Store where
  rows : List FilterRecord
  next_id : Nat
deriving DecidableEq, Repr

/-- The state right after `initialize_database` on a fresh database file. -/
def emptyStore : Store := { rows := [], next_id := 1 }

/-- Python truthiness of an optional string: `None` and `""` are falsy. -/
def pyTruthy : Option String → Bool
  | none => false
  | some s => !(s == "")

/-- `if not change_date: change_date = datetime.now().strftime("%Y-%m-%d")`
in `add_filter_change`. -/
def effectiveDate (today : String) (change_date : Option String) : String :=
  match change_date with
  | none => today
  | some d => if d = "" then today else d

/-- `add_filter_change`: INSERT a new row; `change_date` defaults to the
clock string when falsy.  The source performs no validation. -/
def add_filter_change (today location size product_number : String)
    (change_date : Option String) (s : Store) : Store :=
  { rows := s.rows ++
      [{ id := s.next_id, location := location, size := size,
         product_number := product_number,
         change_date := effectiveDate today change_date }],
    next_id := s.next_id + 1 }

/-- `SELECT * FROM filters WHERE id = ?` followed by `fetchone()`. -/
def findById (s : Store) (record_id : Nat) : Option FilterRecord :=
  s.rows.find? (fun r => r.id == record_id)

/-- `ORDER BY change_date DESC` as a relation: `a` sorts before `b` iff
`a.change_date >= b.change_date`. -/
def dateDesc (a b : FilterRecord) : Prop :=
  strLe b.change_date a.change_date = true

instance : DecidableRel dateDesc :=
  fun a b => inferInstanceAs (Decidable (strLe b.change_date a.change_date = true))

instance : IsTotal FilterRecord dateDesc :=
  ⟨fun a b => strLe_total b.change_date a.change_date⟩

instance : IsTrans FilterRecord dateDesc :=
  ⟨fun _ _ _ hab hbc => strLe_trans hbc hab⟩

/-- `check_last_filter_change`: filter to the location, sort by
`change_date DESC` (stable over scan order), `LIMIT 1`, and return the
selected row's `(change_date, product_number)`; `none` models the
"No record found" message. -/
def check_last_filter_change (s : Store) (location : String) :
    Option (String × String) :=
  match List.insertionSort dateDesc
      (s.rows.filter (fun r => r.location == location)) with
  | [] => none
  | r :: _ => some (r.change_date, r.product_number)

/-- `ORDER BY location ASC, change_date DESC` as a relation. -/
def listOrd (a b : FilterRecord) : Prop :=
  (a.location ≠ b.location ∧ strLe a.location b.location = true) ∨
    (a.location = b.location ∧ strLe b.change_date a.change_date = true)

instance : DecidableRel listOrd := fun a b =>
  inferInstanceAs (Decidable ((a.location ≠ b.location ∧
    strLe a.location b.location = true) ∨
    (a.location = b.location ∧ strLe b.change_date a.change_date = true)))

instance : IsTotal FilterRecord listOrd := by
  constructor
  intro a b
  by_cases h : a.location = b.location
  · rcases strLe_total b.change_date a.change_date with h2 | h2
    · exact Or.inl (Or.inr ⟨h, h2⟩)
    · exact Or.inr (Or.inr ⟨h.symm, h2⟩)
  · rcases strLe_total a.location b.location with h2 | h2
    · exact Or.inl (Or.inl ⟨h, h2⟩)
    · exact Or.inr (Or.inl ⟨fun e => h e.symm, h2⟩)

instance : IsTrans FilterRecord listOrd := by
  constructor
  intro a b c hab hbc
  rcases hab with ⟨hne1, hle1⟩ | ⟨heq1, hd1⟩
  · rcases hbc with ⟨hne2, hle2⟩ | ⟨heq2, hd2⟩
    · refine Or.inl ⟨fun e => ?_, strLe_trans hle1 hle2⟩
      exact hne1 (strLe_antisymm hle1 (e ▸ hle2))
    · exact Or.inl ⟨heq2 ▸ hne1, heq2 ▸ hle1⟩
  · rcases hbc with ⟨hne2, hle2⟩ | ⟨heq2, hd2⟩
    · exact Or.inl ⟨heq1 ▸ hne2, heq1 ▸ hle2⟩
    · exact Or.inr ⟨heq1.trans heq2, strLe_trans hd2 hd1⟩

/-- `list_all_filter_changes`: `SELECT id, location, size, product_number,
change_date FROM filters ORDER BY location ASC, change_date DESC`. -/
def list_all_filter_changes (s : Store) : List FilterRecord :=
  List.insertionSort listOrd s.rows

/-- `export_all_to_csv`: the same SELECT as `list_all_filter_changes`;
the CSV data rows, in order. -/
def export_all_to_csv (s : Store) : List FilterRecord :=
  List.insertionSort listOrd s.rows

/-- Outcome tag of `delete_filter_record` (which message was printed). -/
inductive DeleteResult where
  | deleted
  | notFound
deriving DecidableEq, Repr

/-- `delete_filter_record`: SELECT the row by id; if present, DELETE it,
otherwise report not-found and leave the store unchanged. -/
def delete_filter_record (record_id : Nat) (s : Store) :
    Store × DeleteResult :=
  match findById s record_id with
  | some _ =>
    ({ s with rows := s.rows.filter (fun r => !(r.id == record_id)) },
      DeleteResult.deleted)
  | none => (s, DeleteResult.notFound)

/-- Outcome tag of `edit_filter_record` (which message was printed). -/
inductive EditResult where
  | updated
  | noOp
  | notFound
deriving DecidableEq, Repr

/-- The effect of the built `UPDATE filters SET ...` on one row: each
column is overwritten exactly when its argument is truthy. -/
def applyEdit (location size product_number change_date : Option String)
    (r : FilterRecord) : FilterRecord :=
  { r with
    location := if pyTruthy location then location.getD r.location
      else r.location,
    size := if pyTruthy size then size.getD r.size else r.size,
    product_number := if pyTruthy product_number then
      product_number.getD r.product_number else r.product_number,
    change_date := if pyTruthy change_date then
      change_date.getD r.change_date else r.change_date }

/-- `edit_filter_record`: not-found if the id is absent; otherwise UPDATE
the truthy fields, or report "No fields provided" when none is truthy. -/
def edit_filter_record (record_id : Nat)
    (location size product_number change_date : Option String)
    (s : Store) : Store × EditResult :=
  match findById s record_id with
  | none => (s, EditResult.notFound)
  | some _ =>
    if pyTruthy location || pyTruthy size || pyTruthy product_number
        || pyTruthy change_date then
      ({ s with rows := s.rows.map (fun r =>
          if r.id == record_id then
            applyEdit location size product_number change_date r
          else r) }, EditResult.updated)
    else
      (s, EditResult.noOp)

/-- The distinct values of the `location` column (`GROUP BY location`). -/
def groupLocations (rs : List FilterRecord) : List String :=
  (rs.map (fun r => r.location)).dedup

/-- `WHERE location = ?` over the whole table. -/
def rowsAt (rs : List FilterRecord) (loc : String) : List FilterRecord :=
  rs.filter (fun r => r.location == loc)

/-- `MAX(change_date)` over a group of rows (TEXT max; `""` for an empty
group, which never arises for a GROUP BY group). -/
def listMaxDate : List FilterRecord → String
  | [] => ""
  | r :: rs => strMax r.change_date (listMaxDate rs)

/-- `SELECT location, MAX(change_date) FROM filters GROUP BY location`,
shared by `export_last_changes_to_csv` and
`print_last_change_per_location`. -/
def group_last_changes (rs : List FilterRecord) : List (String × String) :=
  (groupLocations rs).map (fun loc => (loc, listMaxDate (rowsAt rs loc)))

/-- `ORDER BY id DESC LIMIT 1`: the row with the greatest id (ties keep
scan order; ids are in fact unique). -/
def pickLatest : List FilterRecord → Option FilterRecord
  | [] => none
  | r :: rs =>
    match pickLatest rs with
    | none => some r
    | some r2 => some (if r.id < r2.id then r2 else r)

/-- The inner query `SELECT ... WHERE location = ? AND change_date = ?
ORDER BY id DESC LIMIT 1`. -/
def pickFor (rs : List FilterRecord) (loc d : String) :
    Option FilterRecord :=
  pickLatest (rs.filter (fun r => r.location == loc && r.change_date == d))

/-- `export_last_changes_to_csv`: one row per GROUP BY group, each chosen
by the inner `ORDER BY id DESC LIMIT 1` query; the CSV data rows. -/
def export_last_changes_to_csv (s : Store) : List FilterRecord :=
  (group_last_changes s.rows).filterMap (fun p => pickFor s.rows p.1 p.2)

/-- `print_last_change_per_location`: for each GROUP BY group, the printed
`(location, max change_date, product_number of the picked row)`. -/
def print_last_change_per_location (s : Store) :
    List (String × String × String) :=
  (group_last_changes s.rows).filterMap (fun p =>
    (pickFor s.rows p.1 p.2).map (fun r => (p.1, p.2, r.product_number)))

/-- One store operation, as dispatched by `main` (the clock string of an
add is part of the operation). -/
inductive Op where
  | addOp (today location size product_number : String)
      (change_date : Option String)
  | editOp (record_id : Nat)
      (location size product_number change_date : Option String)
  | deleteOp (record_id : Nat)

/-- Apply one operation to the store. -/
def applyOp (s : Store) : Op → Store
  | Op.addOp t l sz pn cd => add_filter_change t l sz pn cd s
  | Op.editOp i l sz pn cd => (edit_filter_record i l sz pn cd s).1
  | Op.deleteOp i => (delete_filter_record i s).1

/-- The store reached from a fresh database by a sequence of operations. -/
def runOps (ops : List Op) : Store := ops.foldl applyOp emptyStore

/-- An add operation carries a non-empty clock string (the real clock
always produces a 10-character `YYYY-MM-DD` string). -/
def opClockNonempty : Op → Prop
  | Op.addOp t _ _ _ _ => t ≠ ""
  | _ => True

theorem strLe_empty_right {a : String} (h : strLe a "" = true) : a = "" := by
  have h2 : strLe "" a = true := rfl
  exact strLe_antisymm h h2

theorem strMax_left (a b : String) : strLe a (strMax a b) = true := by
  unfold strMax
  by_cases h : strLe a b = true
  · simp [h]
  · simpa [h] using strLe_refl a

theorem strMax_right (a b : String) : strLe b (strMax a b) = true := by
  unfold strMax
  by_cases h : strLe a b = true
  · simpa [h] using strLe_refl b
  · rcases strLe_total a b with h2 | h2
    · exact absurd h2 h
    · simpa [h] using h2

theorem strMax_cases (a b : String) : strMax a b = a ∨ strMax a b = b := by
  unfold strMax
  by_cases h : strLe a b = true
  · exact Or.inr (by simp [h])
  · exact Or.inl (by simp [h])

theorem le_listMaxDate (l : List FilterRecord) :
    ∀ r ∈ l, strLe r.change_date (listMaxDate l) = true := by
  induction l with
  | nil => intro r hr; cases hr
  | cons a l ih =>
    intro r hr
    rcases List.mem_cons.mp hr with h | h
    · subst h
      exact strMax_left r.change_date (listMaxDate l)
    · exact strLe_trans (ih r h)
        (strMax_right a.change_date (listMaxDate l))

theorem listMaxDate_mem (l : List FilterRecord) (h : l ≠ []) :
    ∃ r ∈ l, r.change_date = listMaxDate l := by
  induction l with
  | nil => exact absurd rfl h
  | cons a l ih =>
    show ∃ r ∈ a :: l, r.change_date = strMax a.change_date (listMaxDate l)
    rcases strMax_cases a.change_date (listMaxDate l) with h2 | h2
    · exact ⟨a, List.mem_cons_self a l, h2.symm⟩
    · cases l with
      | nil =>
        refine ⟨a, List.mem_cons_self a [], ?_⟩
        have h3 : strLe a.change_date "" = true := by
          have := strMax_left a.change_date (listMaxDate [])
          rw [h2] at this
          exact this
        rw [h2, strLe_empty_right h3]
        rfl
      | cons b l2 =>
        obtain ⟨r, hr, he⟩ := ih (by simp)
        exact ⟨r, List.mem_cons_of_mem a hr, by rw [he, h2]⟩

theorem pickLatest_spec (l : List FilterRecord) (h : l ≠ []) :
    ∃ e, pickLatest l = some e ∧ e ∈ l ∧ ∀ r ∈ l, r.id ≤ e.id := by
  induction l with
  | nil => exact absurd rfl h
  | cons a l ih =>
    cases l with
    | nil =>
      refine ⟨a, rfl, List.mem_cons_self a [], ?_⟩
      intro r hr
      rcases List.mem_cons.mp hr with h2 | h2
      · exact h2 ▸ Nat.le_refl _
      · cases h2
    | cons b l2 =>
      obtain ⟨e, he, hmem, hmax⟩ := ih (by simp)
      by_cases hlt : a.id < e.id
      · refine ⟨e, ?_, List.mem_cons_of_mem a hmem, ?_⟩
        · show (match pickLatest (b :: l2) with
            | none => some a
            | some r2 => some (if a.id < r2.id then r2 else a)) = some e
          rw [he]
          simp [hlt]
        · intro r hr
          rcases List.mem_cons.mp hr with h2 | h2
          · exact h2 ▸ Nat.le_of_lt hlt
          · exact hmax r h2
      · refine ⟨a, ?_, List.mem_cons_self a _, ?_⟩
        · show (match pickLatest (b :: l2) with
            | none => some a
            | some r2 => some (if a.id < r2.id then r2 else a)) = some a
          rw [he]
          simp [hlt]
        · intro r hr
          rcases List.mem_cons.mp hr with h2 | h2
          · exact h2 ▸ Nat.le_refl _
          · exact Nat.le_trans (hmax r h2) (Nat.le_of_not_lt hlt)

theorem sortedHead_max {l t : List FilterRecord} {r : FilterRecord}
    (h : List.insertionSort dateDesc l = r :: t) :
    r ∈ l ∧ ∀ x ∈ l, strLe x.change_date r.change_date = true := by
  have hperm := List.perm_insertionSort dateDesc l
  have hsorted := List.sorted_insertionSort dateDesc l
  rw [h] at hperm hsorted
  constructor
  · exact hperm.mem_iff.mp (List.mem_cons_self r t)
  · intro x hx
    have hx2 : x ∈ r :: t := hperm.mem_iff.mpr hx
    rcases List.mem_cons.mp hx2 with h2 | h2
    · exact h2 ▸ strLe_refl x.change_date
    · exact List.rel_of_sorted_cons hsorted x h2

theorem insertionSort_ne_nil {l : List FilterRecord} (h : l ≠ []) :
    List.insertionSort dateDesc l ≠ [] := by
  intro h2
  have hperm := List.perm_insertionSort dateDesc l
  rw [h2] at hperm
  exact h hperm.symm.eq_nil

theorem mem_groupLocations {rs : List FilterRecord} {loc : String} :
    loc ∈ groupLocations rs ↔ ∃ r ∈ rs, r.location = loc := by
  unfold groupLocations
  rw [List.mem_dedup, List.mem_map]

theorem mem_rowsAt {rs : List FilterRecord} {loc : String} {r : FilterRecord} :
    r ∈ rowsAt rs loc ↔ r ∈ rs ∧ r.location = loc := by
  unfold rowsAt
  rw [List.mem_filter]
  simp

theorem pickFor_spec (rs : List FilterRecord) (loc : String)
    (h : ∃ r ∈ rs, r.location = loc) :
    ∃ e, pickFor rs loc (listMaxDate (rowsAt rs loc)) = some e ∧
      e ∈ rs ∧ e.location = loc ∧
      e.change_date = listMaxDate (rowsAt rs loc) ∧
      (∀ r ∈ rs, r.location = loc →
        strLe r.change_date e.change_date = true) ∧
      (∀ r ∈ rs, r.location = loc → r.change_date = e.change_date →
        r.id ≤ e.id) := by
  obtain ⟨r0, hr0, hloc0⟩ := h
  have hAt : r0 ∈ rowsAt rs loc := mem_rowsAt.mpr ⟨hr0, hloc0⟩
  have hne : rowsAt rs loc ≠ [] := List.ne_nil_of_mem hAt
  obtain ⟨m, hm, hmd⟩ := listMaxDate_mem (rowsAt rs loc) hne
  obtain ⟨hmrs, hmloc⟩ := mem_rowsAt.mp hm
  have hmcand : m ∈ rs.filter (fun r =>
      r.location == loc && r.change_date == listMaxDate (rowsAt rs loc)) := by
    rw [List.mem_filter]
    refine ⟨hmrs, ?_⟩
    simp [hmloc, hmd]
  have hcne : rs.filter (fun r =>
      r.location == loc && r.change_date == listMaxDate (rowsAt rs loc)) ≠ [] :=
    List.ne_nil_of_mem hmcand
  obtain ⟨e, he, hemem, hemax⟩ := pickLatest_spec _ hcne
  have hef := List.mem_filter.mp hemem
  have heloc : e.location = loc := by
    have := hef.2
    simp only [Bool.and_eq_true, beq_iff_eq] at this
    exact this.1
  have hedate : e.change_date = listMaxDate (rowsAt rs loc) := by
    have := hef.2
    simp only [Bool.and_eq_true, beq_iff_eq] at this
    exact this.2
  refine ⟨e, he, hef.1, heloc, hedate, ?_, ?_⟩
  · intro r hr hrl
    rw [hedate]
    exact le_listMaxDate (rowsAt rs loc) r (mem_rowsAt.mpr ⟨hr, hrl⟩)
  · intro r hr hrl hrd
    have : r ∈ rs.filter (fun r =>
        r.location == loc && r.change_date == listMaxDate (rowsAt rs loc)) := by
      rw [List.mem_filter]
      refine ⟨hr, ?_⟩
      simp [hrl, hrd, hedate]
    exact hemax r this

theorem export_last_eq (s : Store) :
    export_last_changes_to_csv s = (groupLocations s.rows).filterMap
      (fun loc => pickFor s.rows loc (listMaxDate (rowsAt s.rows loc))) := by
  unfold export_last_changes_to_csv group_last_changes
  rw [List.filterMap_map]
  rfl

theorem export_locations (l : List String) (rs : List FilterRecord)
    (h : ∀ loc ∈ l, ∃ r ∈ rs, r.location = loc) :
    (l.filterMap (fun loc =>
      pickFor rs loc (listMaxDate (rowsAt rs loc)))).map
        (fun e => e.location) = l := by
  induction l with
  | nil => rfl
  | cons loc l ih =>
    obtain ⟨e, he, _, heloc, _, _, _⟩ :=
      pickFor_spec rs loc (h loc (List.mem_cons_self loc l))
    rw [List.filterMap_cons, he, List.map_cons, heloc,
      ih (fun x hx => h x (List.mem_cons_of_mem loc hx))]

theorem print_eq_export_map (l : List String) (rs : List FilterRecord)
    (h : ∀ loc ∈ l, ∃ r ∈ rs, r.location = loc) :
    l.filterMap (fun loc =>
      (pickFor rs loc (listMaxDate (rowsAt rs loc))).map
        (fun r => (loc, listMaxDate (rowsAt rs loc), r.product_number))) =
    (l.filterMap (fun loc =>
      pickFor rs loc (listMaxDate (rowsAt rs loc)))).map
        (fun e => (e.location, e.change_date, e.product_number)) := by
  induction l with
  | nil => rfl
  | cons loc l ih =>
    obtain ⟨e, he, _, heloc, hedate, _, _⟩ :=
      pickFor_spec rs loc (h loc (List.mem_cons_self loc l))
    rw [List.filterMap_cons, List.filterMap_cons, he, List.map_cons, heloc,
      hedate, ih (fun x hx => h x (List.mem_cons_of_mem loc hx))]
    rfl

theorem print_last_eq (s : Store) :
    print_last_change_per_location s =
      (export_last_changes_to_csv s).map
        (fun e => (e.location, e.change_date, e.product_number)) := by
  unfold print_last_change_per_location
  rw [export_last_eq]
  unfold group_last_changes
  rw [List.filterMap_map]
  have h : ∀ loc ∈ groupLocations s.rows, ∃ r ∈ s.rows, r.location = loc :=
    fun loc hl => mem_groupLocations.mp hl
  have := print_eq_export_map (groupLocations s.rows) s.rows h
  rw [← this]
  rfl

/-- C2 counterexample: a Create call with empty `location`, `size` and
`product_number` is not aborted; it writes a row carrying the empty
fields, so the store state changes. -/
theorem C2_counterexample :
    (add_filter_change "2024-05-06" "" "" "" none emptyStore).rows =
      [{ id := 1, location := "", size := "", product_number := "",
         change_date := "2024-05-06" }] ∧
    (add_filter_change "2024-05-06" "" "" "" none emptyStore).rows ≠
      emptyStore.rows := by
  decide

/-- C2 (amended): `add_filter_change` performs no validation at all: every
Create call, including one whose `location`, `size` or `product_number` is
empty, appends exactly one row holding the given field values (with
`change_date` defaulted when falsy); no error is signalled and the write
always happens. -/
theorem C2_create_never_validates
    (today location size product_number : String)
    (change_date : Option String) (s : Store) :
    (add_filter_change today location size product_number change_date
      s).rows =
      s.rows ++
        [{ id := s.next_id, location := location, size := size,
           product_number := product_number,
           change_date := effectiveDate today change_date }] := rfl

/-- C9: the sequence produced by `export_all_to_csv` equals the sequence
produced by `list_all_filter_changes` — same records in the same order
(both run the identical `ORDER BY location ASC, change_date DESC`
query). -/
theorem C9_export_all_eq_list_all (s : Store) :
    export_all_to_csv s = list_all_filter_changes s := rfl

/-- C10: a Create call whose `change_date` is the empty string behaves
exactly like one with `change_date` omitted: the same store results, and
the persisted row's `change_date` is the current-date string rather than
the empty string. -/
theorem C10_empty_date_defaults
    (today location size product_number : String) (s : Store) :
    add_filter_change today location size product_number (some "") s =
      add_filter_change today location size product_number none s ∧
    (add_filter_change today location size product_number (some "")
      s).rows =
      s.rows ++
        [{ id := s.next_id, location := location, size := size,
           product_number := product_number, change_date := today }] :=
  ⟨rfl, rfl⟩

/-- C5: deleting a nonexistent id signals not-found and leaves the store
(and hence `list_all_filter_changes`) unchanged; deleting an existing id
reports success and a subsequent lookup of that id finds nothing. -/
theorem C5_delete_semantics (s : Store) (i : Nat) :
    ((¬ ∃ r ∈ s.rows, r.id = i) →
      delete_filter_record i s = (s, DeleteResult.notFound) ∧
      list_all_filter_changes (delete_filter_record i s).1 =
        list_all_filter_changes s) ∧
    ((∃ r ∈ s.rows, r.id = i) →
      (delete_filter_record i s).2 = DeleteResult.deleted ∧
      findById (delete_filter_record i s).1 i = none) := by
  constructor
  · intro h
    have hfind : findById s i = none := by
      unfold findById
      rw [List.find?_eq_none]
      intro r hr
      simp only [beq_iff_eq]
      exact fun he => h ⟨r, hr, he⟩
    have hd : delete_filter_record i s = (s, DeleteResult.notFound) := by
      unfold delete_filter_record
      rw [hfind]
    exact ⟨hd, by rw [hd]⟩
  · rintro ⟨r, hr, hri⟩
    have hfind : (findById s i).isSome := by
      unfold findById
      rw [List.find?_isSome]
      exact ⟨r, hr, by simp [hri]⟩
    obtain ⟨r2, hr2⟩ := Option.isSome_iff_exists.mp hfind
    have hd : delete_filter_record i s =
        ({ s with rows := s.rows.filter (fun x => !(x.id == i)) },
          DeleteResult.deleted) := by
      unfold delete_filter_record
      rw [hr2]
    rw [hd]
    refine ⟨rfl, ?_⟩
    unfold findById
    rw [List.find?_eq_none]
    intro x hx
    have := (List.mem_filter.mp hx).2
    simp only [Bool.not_eq_eq_eq_not, Bool.not_true, beq_eq_false_iff_ne,
      ne_eq] at this
    simpa using this

/-- A concrete one-row store used to instantiate universally quantified
results. -/
def oneRowStore : Store :=
  { rows :=
      [{ id := 1, location := "K", size := "s", product_number := "p",
         change_date := "2024-01-01" }],
    next_id := 2 }

/-- C5 witness: on a one-row store, deleting id 2 is a no-change
not-found, and deleting id 1 succeeds and makes id 1 unfindable. -/
theorem C5_delete_witness :
    delete_filter_record 2 oneRowStore =
      (oneRowStore, DeleteResult.notFound) ∧
    (delete_filter_record 1 oneRowStore).2 = DeleteResult.deleted ∧
    findById (delete_filter_record 1 oneRowStore).1 1 = none :=
  ⟨((C5_delete_semantics oneRowStore 2).1 (by decide)).1,
    ((C5_delete_semantics oneRowStore 1).2 (by decide)).1,
    ((C5_delete_semantics oneRowStore 1).2 (by decide)).2⟩

/-- C6: `list_all_filter_changes` returns every persisted record exactly
once (a permutation of the table), ordered primarily by `location`
ascending and secondarily by `change_date` descending, and returns the
empty sequence on an empty store. -/
theorem C6_list_all_spec (s : Store) :
    List.Perm (list_all_filter_changes s) s.rows ∧
    List.Pairwise listOrd (list_all_filter_changes s) ∧
    (s.rows = [] → list_all_filter_changes s = []) := by
  refine ⟨List.perm_insertionSort listOrd s.rows,
    List.sorted_insertionSort listOrd s.rows, ?_⟩
  intro h
  unfold list_all_filter_changes
  rw [h]
  rfl

/-- C6 witness: on the empty store the listing is the empty sequence. -/
theorem C6_list_all_witness : list_all_filter_changes emptyStore = [] :=
  (C6_list_all_spec emptyStore).2.2 rfl

theorem pyTruthy_some {o : Option String} (h : pyTruthy o = true) :
    ∃ v, o = some v ∧ v ≠ "" := by
  cases o with
  | none => simp [pyTruthy] at h
  | some v =>
    refine ⟨v, rfl, ?_⟩
    simpa [pyTruthy] using h

/-- C4: when the id exists and at least one field is supplied (non-empty),
exactly the supplied columns are overwritten and every other column of
every row — including `id` — keeps its prior value; a missing id signals
not-found with the store untouched; an empty supplied field set signals
the no-op message with the store byte-for-byte unchanged. -/
theorem C4_edit_semantics (s : Store) (i : Nat)
    (location size product_number change_date : Option String) :
    ((¬ ∃ r ∈ s.rows, r.id = i) →
      edit_filter_record i location size product_number change_date s =
        (s, EditResult.notFound)) ∧
    ((∃ r ∈ s.rows, r.id = i) →
      ((pyTruthy location = false ∧ pyTruthy size = false ∧
        pyTruthy product_number = false ∧ pyTruthy change_date = false) →
        edit_filter_record i location size product_number change_date s =
          (s, EditResult.noOp)) ∧
      ((pyTruthy location = true ∨ pyTruthy size = true ∨
        pyTruthy product_number = true ∨ pyTruthy change_date = true) →
        (edit_filter_record i location size product_number change_date
          s).2 = EditResult.updated ∧
        (edit_filter_record i location size product_number change_date
          s).1.next_id = s.next_id ∧
        (edit_filter_record i location size product_number change_date
          s).1.rows = s.rows.map (fun r => if r.id = i then
            applyEdit location size product_number change_date r
          else r))) ∧
    (∀ r : FilterRecord,
      (applyEdit location size product_number change_date r).id = r.id ∧
      (pyTruthy location = false →
        (applyEdit location size product_number change_date r).location =
          r.location) ∧
      (∀ v, location = some v → v ≠ "" →
        (applyEdit location size product_number change_date r).location =
          v) ∧
      (pyTruthy size = false →
        (applyEdit location size product_number change_date r).size =
          r.size) ∧
      (∀ v, size = some v → v ≠ "" →
        (applyEdit location size product_number change_date r).size = v) ∧
      (pyTruthy product_number = false →
        (applyEdit location size product_number change_date
          r).product_number = r.product_number) ∧
      (∀ v, product_number = some v → v ≠ "" →
        (applyEdit location size product_number change_date
          r).product_number = v) ∧
      (pyTruthy change_date = false →
        (applyEdit location size product_number change_date
          r).change_date = r.change_date) ∧
      (∀ v, change_date = some v → v ≠ "" →
        (applyEdit location size product_number change_date
          r).change_date = v)) := by
  refine ⟨?_, ?_, ?_⟩
  · intro h
    have hfind : findById s i = none := by
      unfold findById
      rw [List.find?_eq_none]
      intro r hr
      simp only [beq_iff_eq]
      exact fun he => h ⟨r, hr, he⟩
    unfold edit_filter_record
    rw [hfind]
  · rintro ⟨r, hr, hri⟩
    have hfind : (findById s i).isSome := by
      unfold findById
      rw [List.find?_isSome]
      exact ⟨r, hr, by simp [hri]⟩
    obtain ⟨r2, hr2⟩ := Option.isSome_iff_exists.mp hfind
    constructor
    · rintro ⟨h1, h2, h3, h4⟩
      unfold edit_filter_record
      rw [hr2, h1, h2, h3, h4]
      rfl
    · intro htruthy
      have hcond : (pyTruthy location || pyTruthy size ||
          pyTruthy product_number || pyTruthy change_date) = true := by
        rcases htruthy with h | h | h | h <;> simp [h]
      have hmapeq : (fun r : FilterRecord => if r.id == i then
            applyEdit location size product_number change_date r
          else r) = (fun r : FilterRecord => if r.id = i then
            applyEdit location size product_number change_date r
          else r) := by
        funext x
        by_cases hx : x.id = i <;> simp [hx]
      have hed : edit_filter_record i location size product_number
          change_date s =
          ({ s with rows := s.rows.map (fun r => if r.id = i then
              applyEdit location size product_number change_date r
            else r) }, EditResult.updated) := by
        unfold edit_filter_record
        rw [hr2, hcond, hmapeq]
        simp
      rw [hed]
      exact ⟨rfl, rfl, rfl⟩
  · intro r
    refine ⟨rfl, ?_, ?_, ?_, ?_, ?_, ?_, ?_, ?_⟩ <;>
      first
        | (intro h; simp [applyEdit, h])
        | (intro v hv hvne; simp [applyEdit, hv, pyTruthy, hvne])

/-- C4 witness: on a one-row store, editing a missing id is a pure
not-found; an edit whose only argument is an empty string is the no-op
with the store unchanged; a supplied location is written and unsupplied
columns keep their values. -/
theorem C4_edit_witness :
    edit_filter_record 2 (some "L") none none none oneRowStore =
      (oneRowStore, EditResult.notFound) ∧
    edit_filter_record 1 none (some "") none none oneRowStore =
      (oneRowStore, EditResult.noOp) ∧
    (edit_filter_record 1 (some "L") none none none oneRowStore).2 =
      EditResult.updated ∧
    (applyEdit (some "L") none none none
      { id := 1, location := "K", size := "s", product_number := "p",
        change_date := "2024-01-01" }).location = "L" ∧
    (applyEdit (some "L") none none none
      { id := 1, location := "K", size := "s", product_number := "p",
        change_date := "2024-01-01" }).size = "s" :=
  ⟨(C4_edit_semantics oneRowStore 2 (some "L") none none none).1
      (by decide),
    ((C4_edit_semantics oneRowStore 1 none (some "") none none).2.1
      (by decide)).1 (by decide),
    (((C4_edit_semantics oneRowStore 1 (some "L") none none none).2.1
      (by decide)).2 (Or.inl (by decide))).1,
    (C4_edit_semantics oneRowStore 1 (some "L") none none none).2.2
      { id := 1, location := "K", size := "s", product_number := "p",
        change_date := "2024-01-01" } |>.2.2.1 "L" rfl (by decide),
    (C4_edit_semantics oneRowStore 1 (some "L") none none none).2.2
      { id := 1, location := "K", size := "s", product_number := "p",
        change_date := "2024-01-01" } |>.2.2.2.1 (by decide)⟩

/-- C3 counterexample: a single Create reaches a store whose persisted
record has an empty `location` (and the analogous calls give empty `size`
or `product_number`), so the non-emptiness invariant fails for those
fields. -/
theorem C3_counterexample :
    (runOps [Op.addOp "2024-01-02" "" "sz" "pn" none]).rows =
      [{ id := 1, location := "", size := "sz", product_number := "pn",
         change_date := "2024-01-02" }] ∧
    (∃ r ∈ (runOps [Op.addOp "2024-01-02" "" "sz" "pn" none]).rows,
      r.location = "") := by
  decide

theorem applyEdit_change_date_ne
    (location size product_number change_date : Option String)
    (r : FilterRecord) (h : r.change_date ≠ "") :
    (applyEdit location size product_number change_date r).change_date ≠
      "" := by
  by_cases hcd : pyTruthy change_date = true
  · obtain ⟨v, hv, hvne⟩ := pyTruthy_some hcd
    rw [hv]
    simp [applyEdit, pyTruthy, hvne]
  · rw [Bool.not_eq_true] at hcd
    simpa [applyEdit, hcd] using h

theorem applyOp_dates (s : Store) (op : Op)
    (hs : ∀ r ∈ s.rows, r.change_date ≠ "") (hop : opClockNonempty op) :
    ∀ r ∈ (applyOp s op).rows, r.change_date ≠ "" := by
  cases op with
  | addOp t l sz pn cd =>
    intro r hr
    unfold applyOp add_filter_change at hr
    simp only [List.mem_append, List.mem_singleton] at hr
    rcases hr with h | h
    · exact hs r h
    · subst h
      show effectiveDate t cd ≠ ""
      unfold effectiveDate
      cases cd with
      | none => exact hop
      | some d =>
        by_cases hd : d = ""
        · simpa [hd] using hop
        · simp [hd]
  | editOp i l sz pn cd =>
    intro r hr
    have ha : applyOp s (Op.editOp i l sz pn cd) =
        (edit_filter_record i l sz pn cd s).1 := rfl
    rw [ha] at hr
    unfold edit_filter_record at hr
    cases hfind : findById s i with
    | none =>
      simp only [hfind] at hr
      exact hs r hr
    | some r2 =>
      simp only [hfind] at hr
      by_cases hc : (pyTruthy l || pyTruthy sz || pyTruthy pn ||
          pyTruthy cd) = true
      · rw [if_pos hc] at hr
        replace hr : r ∈ s.rows.map (fun x =>
            if x.id == i then applyEdit l sz pn cd x else x) := hr
        simp only [List.mem_map] at hr
        obtain ⟨x, hx, hxe⟩ := hr
        by_cases hxi : (x.id == i) = true
        · rw [if_pos hxi] at hxe
          subst hxe
          exact applyEdit_change_date_ne l sz pn cd x (hs x hx)
        · rw [if_neg hxi] at hxe
          subst hxe
          exact hs x hx
      · rw [if_neg hc] at hr
        exact hs r hr
  | deleteOp i =>
    intro r hr
    have ha : applyOp s (Op.deleteOp i) =
        (delete_filter_record i s).1 := rfl
    rw [ha] at hr
    unfold delete_filter_record at hr
    cases hfind : findById s i with
    | none =>
      simp only [hfind] at hr
      exact hs r hr
    | some r2 =>
      simp only [hfind] at hr
      have hr2 : r ∈ s.rows.filter (fun x => !(x.id == i)) := hr
      exact hs r (List.mem_filter.mp hr2).1

theorem runOps_aux_dates (ops : List Op) (s : Store)
    (hs : ∀ r ∈ s.rows, r.change_date ≠ "")
    (h : ∀ op ∈ ops, opClockNonempty op) :
    ∀ r ∈ (ops.foldl applyOp s).rows, r.change_date ≠ "" := by
  induction ops generalizing s with
  | nil => exact hs
  | cons op ops ih =>
    exact ih (applyOp s op)
      (applyOp_dates s op hs (h op (List.mem_cons_self op ops)))
      (fun o ho => h o (List.mem_cons_of_mem op ho))

/-- C3 (amended): in every store reachable by Create, Update and Delete
operations whose clock strings are non-empty, every persisted record has a
non-empty `change_date`; the non-emptiness of `location`, `size` and
`product_number` is not an invariant, since Create persists empty values
for those fields unvalidated. -/
theorem C3_change_date_invariant (ops : List Op)
    (h : ∀ op ∈ ops, opClockNonempty op) :
    ∀ r ∈ (runOps ops).rows, r.change_date ≠ "" :=
  runOps_aux_dates ops emptyStore (fun r hr => absurd hr (by simp [emptyStore])) h

/-- C3 witness: the record created by a concrete add-then-edit run has a
non-empty change date. -/
theorem C3_change_date_witness :
    ({ id := 1, location := "K", size := "s", product_number := "p",
       change_date := "2024-02-03" } : FilterRecord).change_date ≠ "" :=
  C3_change_date_invariant
    [Op.addOp "2024-01-02" "K" "s" "p" none,
     Op.editOp 1 none none none (some "2024-02-03")]
    (by
      intro op hop
      rcases List.mem_cons.mp hop with h | h
      · subst h
        exact (by decide : ("2024-01-02" : String) ≠ "")
      · rcases List.mem_singleton.mp h with rfl
        trivial)
    _ (by decide)

/-- A store holding a record dated later than the clock used by the next
Create call. -/
def futureStore : Store :=
  { rows :=
      [{ id := 1, location := "K", size := "s", product_number := "OLD",
         change_date := "9999-12-31" }],
    next_id := 2 }

/-- C7 counterexample: Create with `change_date` omitted followed by
FindLatestByLocation does not return the created record when the location
already holds a later-dated record — the query returns the old record's
data, whose `product_number` differs from the created one. -/
theorem C7_counterexample :
    check_last_filter_change
        (add_filter_change "2024-01-02" "K" "sz" "NEW" none futureStore)
        "K" = some ("9999-12-31", "OLD") ∧
    ("9999-12-31", "OLD") ≠ ("2024-01-02", "NEW") := by
  decide

/-- C7 (amended): Create with `change_date` omitted persists exactly the
given fields with the clock string as date; and provided every record
already stored at that location is dated strictly before the clock
string, a subsequent FindLatestByLocation on that location selects the
created record, returning its date and product number. -/
theorem C7_create_then_check (s : Store)
    (today location size product_number : String)
    (h : ∀ r ∈ s.rows, r.location = location →
      strLe today r.change_date = false) :
    (add_filter_change today location size product_number none s).rows =
      s.rows ++
        [{ id := s.next_id, location := location, size := size,
           product_number := product_number, change_date := today }] ∧
    check_last_filter_change
        (add_filter_change today location size product_number none s)
        location = some (today, product_number) := by
  refine ⟨rfl, ?_⟩
  have hfilter : (add_filter_change today location size product_number
      none s).rows.filter (fun r => r.location == location) =
      s.rows.filter (fun r => r.location == location) ++
        [{ id := s.next_id, location := location, size := size,
           product_number := product_number, change_date := today }] := by
    have hadd : (add_filter_change today location size product_number
        none s).rows =
        s.rows ++
          [{ id := s.next_id, location := location, size := size,
             product_number := product_number,
             change_date := today }] := rfl
    rw [hadd, List.filter_append]
    simp
  have hmem : ({ id := s.next_id, location := location, size := size,
                 product_number := product_number,
                 change_date := today } : FilterRecord) ∈
      (add_filter_change today location size product_number
        none s).rows.filter (fun r => r.location == location) := by
    rw [hfilter]
    exact List.mem_append_right _ (List.mem_singleton.mpr rfl)
  have hne : (add_filter_change today location size product_number
      none s).rows.filter (fun r => r.location == location) ≠ [] :=
    List.ne_nil_of_mem hmem
  cases hsort : List.insertionSort dateDesc
      ((add_filter_change today location size product_number
        none s).rows.filter (fun r => r.location == location)) with
  | nil => exact absurd hsort (insertionSort_ne_nil hne)
  | cons m t =>
    obtain ⟨hm_mem, hm_max⟩ := sortedHead_max hsort
    have hge : strLe today m.change_date = true := by
      have := hm_max _ hmem
      simpa using this
    have hm2 := hm_mem
    rw [hfilter] at hm2
    rcases List.mem_append.mp hm2 with hold | hnew2
    · have hmr := List.mem_filter.mp hold
      have hmloc : m.location = location := by simpa using hmr.2
      have hlt := h m hmr.1 hmloc
      rw [hge] at hlt
      cases hlt
    · have hm3 : m = { id := s.next_id, location := location,
                       size := size, product_number := product_number,
                       change_date := today } :=
        List.mem_singleton.mp hnew2
      unfold check_last_filter_change
      rw [hsort, hm3]

/-- C7 witness: creating into an empty store and checking the location
returns the created date and product number. -/
theorem C7_create_then_check_witness :
    check_last_filter_change
        (add_filter_change "2024-01-02" "K" "sz" "P" none emptyStore)
        "K" = some ("2024-01-02", "P") :=
  (C7_create_then_check emptyStore "2024-01-02" "K" "sz" "P"
    (by
      intro r hr hloc
      exact absurd hr (List.not_mem_nil r))).2

/-- C8: the per-location "latest" aggregation yields exactly one entry per
distinct location present in the store, each entry being a persisted
record of that location carrying its maximum `change_date`; the mapping is
empty on the empty store; and the printed per-location report is exactly
the exported one. -/
theorem C8_latest_per_location (s : Store) :
    (s.rows = [] → export_last_changes_to_csv s = [] ∧
      print_last_change_per_location s = []) ∧
    ((export_last_changes_to_csv s).map (fun e => e.location)).Nodup ∧
    (∀ loc, (∃ r ∈ s.rows, r.location = loc) ↔
      (∃ e ∈ export_last_changes_to_csv s, e.location = loc)) ∧
    (∀ e ∈ export_last_changes_to_csv s, e ∈ s.rows ∧
      ∀ r ∈ s.rows, r.location = e.location →
        strLe r.change_date e.change_date = true) ∧
    print_last_change_per_location s =
      (export_last_changes_to_csv s).map
        (fun e => (e.location, e.change_date, e.product_number)) := by
  have hgm : ∀ loc ∈ groupLocations s.rows, ∃ r ∈ s.rows,
      r.location = loc := fun loc hl => mem_groupLocations.mp hl
  have hmap : (export_last_changes_to_csv s).map (fun e => e.location) =
      groupLocations s.rows := by
    rw [export_last_eq]
    exact export_locations (groupLocations s.rows) s.rows hgm
  have hent : ∀ e ∈ export_last_changes_to_csv s, e ∈ s.rows ∧
      ∀ r ∈ s.rows, r.location = e.location →
        strLe r.change_date e.change_date = true := by
    intro e he
    rw [export_last_eq, List.mem_filterMap] at he
    obtain ⟨loc, hl, hp⟩ := he
    obtain ⟨e2, he2, hmem2, hloc2, hdate2, hmax2, _⟩ :=
      pickFor_spec s.rows loc (hgm loc hl)
    have he3 : e2 = e := Option.some.inj (he2.symm.trans hp)
    subst he3
    exact ⟨hmem2, fun r hr hrl => hmax2 r hr (hrl.trans hloc2)⟩
  refine ⟨?_, ?_, ?_, hent, print_last_eq s⟩
  · intro h
    have hexp : export_last_changes_to_csv s = [] := by
      rw [export_last_eq]
      have hg : groupLocations s.rows = [] := by
        unfold groupLocations
        rw [h]
        rfl
      rw [hg]
      rfl
    exact ⟨hexp, by rw [print_last_eq, hexp]; rfl⟩
  · rw [hmap]
    exact List.nodup_dedup _
  · intro loc
    constructor
    · rintro ⟨r, hr, hrl⟩
      have hgl : loc ∈ groupLocations s.rows :=
        mem_groupLocations.mpr ⟨r, hr, hrl⟩
      rw [← hmap] at hgl
      obtain ⟨e, he, heq⟩ := List.mem_map.mp hgl
      exact ⟨e, he, heq⟩
    · rintro ⟨e, he, heq⟩
      exact ⟨e, (hent e he).1, heq⟩

/-- C8 witness: empty store gives the empty mapping and report; a one-row
store gives a non-empty mapping. -/
theorem C8_latest_per_location_witness :
    export_last_changes_to_csv emptyStore = [] ∧
    print_last_change_per_location emptyStore = [] ∧
    export_last_changes_to_csv oneRowStore ≠ [] := by
  refine ⟨((C8_latest_per_location emptyStore).1 rfl).1,
    ((C8_latest_per_location emptyStore).1 rfl).2, ?_⟩
  obtain ⟨e, he, _⟩ := ((C8_latest_per_location oneRowStore).2.2.1 "K").mp
    ⟨{ id := 1, location := "K", size := "s", product_number := "p",
       change_date := "2024-01-01" }, by decide, rfl⟩
  exact List.ne_nil_of_mem he

/-- Two same-location records sharing the maximal `change_date`; the
higher id carries a different product number. -/
def kitchenTie : Store :=
  { rows :=
      [{ id := 1, location := "Kitchen", size := "20x20",
         product_number := "ABC123", change_date := "2024-01-01" },
       { id := 2, location := "Kitchen", size := "20x20",
         product_number := "ABC999", change_date := "2024-01-01" }],
    next_id := 3 }

/-- C1 counterexample: on a maximal-`change_date` tie,
`check_last_filter_change` (FindLatestByLocation) returns the data of the
id-1 record (its query has no id tie-break; ties keep scan order), while
`export_last_changes_to_csv` and `print_last_change_per_location` return
the id-2 record — so the highest-id tie-break does not hold identically
across the three queries. -/
theorem C1_counterexample :
    check_last_filter_change kitchenTie "Kitchen" =
      some ("2024-01-01", "ABC123") ∧
    export_last_changes_to_csv kitchenTie =
      [{ id := 2, location := "Kitchen", size := "20x20",
         product_number := "ABC999", change_date := "2024-01-01" }] ∧
    print_last_change_per_location kitchenTie =
      [("Kitchen", "2024-01-01", "ABC999")] ∧
    some ("2024-01-01", "ABC123") ≠ some ("2024-01-01", "ABC999") := by
  decide

/-- C1 (amended): for every location present in the store,
`check_last_filter_change` returns the date and product number of a
record of that location with maximal `change_date` (ties resolved by the
sort, not by highest id), while `export_last_changes_to_csv` and
`print_last_change_per_location` both return the record of that location
with the maximal `change_date` and, among those, the highest id. -/
theorem C1_latest_queries (s : Store) (loc : String)
    (h : ∃ r ∈ s.rows, r.location = loc) :
    (∃ m ∈ s.rows, m.location = loc ∧
      check_last_filter_change s loc =
        some (m.change_date, m.product_number) ∧
      ∀ r ∈ s.rows, r.location = loc →
        strLe r.change_date m.change_date = true) ∧
    (∃ e, pickFor s.rows loc (listMaxDate (rowsAt s.rows loc)) = some e ∧
      e ∈ export_last_changes_to_csv s ∧
      (loc, e.change_date, e.product_number) ∈
        print_last_change_per_location s ∧
      e.location = loc ∧
      (∀ r ∈ s.rows, r.location = loc →
        strLe r.change_date e.change_date = true) ∧
      (∀ r ∈ s.rows, r.location = loc → r.change_date = e.change_date →
        r.id ≤ e.id)) := by
  obtain ⟨r0, hr0, hl0⟩ := h
  constructor
  · have hmem0 : r0 ∈ s.rows.filter (fun r => r.location == loc) :=
      List.mem_filter.mpr ⟨hr0, by simp [hl0]⟩
    have hne : s.rows.filter (fun r => r.location == loc) ≠ [] :=
      List.ne_nil_of_mem hmem0
    cases hsort : List.insertionSort dateDesc
        (s.rows.filter (fun r => r.location == loc)) with
    | nil => exact absurd hsort (insertionSort_ne_nil hne)
    | cons m t =>
      obtain ⟨hm_mem, hm_max⟩ := sortedHead_max hsort
      have hmf := List.mem_filter.mp hm_mem
      refine ⟨m, hmf.1, by simpa using hmf.2, ?_, ?_⟩
      · unfold check_last_filter_change
        rw [hsort]
      · intro r hr hrl
        exact hm_max r (List.mem_filter.mpr ⟨hr, by simp [hrl]⟩)
  · obtain ⟨e, he, hemem, heloc, hedate, hmax, hid⟩ :=
      pickFor_spec s.rows loc ⟨r0, hr0, hl0⟩
    have hgl : loc ∈ groupLocations s.rows :=
      mem_groupLocations.mpr ⟨r0, hr0, hl0⟩
    have hexp : e ∈ export_last_changes_to_csv s := by
      rw [export_last_eq, List.mem_filterMap]
      exact ⟨loc, hgl, he⟩
    have hprint : (loc, e.change_date, e.product_number) ∈
        print_last_change_per_location s := by
      rw [print_last_eq, List.mem_map]
      exact ⟨e, hexp, by rw [heloc]⟩
    exact ⟨e, he, hexp, hprint, heloc, hmax, hid⟩

/-- C1 witness: on the tied Kitchen store the check query returns a row
and the per-location export is non-empty. -/
theorem C1_latest_queries_witness :
    check_last_filter_change kitchenTie "Kitchen" ≠ none ∧
    export_last_changes_to_csv kitchenTie ≠ [] := by
  obtain ⟨hcheck, hpick⟩ := C1_latest_queries kitchenTie "Kitchen"
    ⟨{ id := 1, location := "Kitchen", size := "20x20",
       product_number := "ABC123", change_date := "2024-01-01" },
     by decide, rfl⟩
  constructor
  · obtain ⟨m, _, _, hc, _⟩ := hcheck
    rw [hc]
    exact Option.some_ne_none _
  · obtain ⟨e, _, hexp, _⟩ := hpick
    exact List.ne_nil_of_mem hexp
